import Mathlib

/-!
Shallow embedding of the core of go-numb/hftbacktest:

* `src/rust/src/depth/l3mbomarketdepth.rs` — the L3 market-by-order book
  (`L3MBOMarketDepth` with `add`, `add_buy_order`, `add_sell_order`,
  `delete_order`, `modify_order`, `clear_depth` and the read queries);
* `src/connector/src/binancefutures/market_data_stream.rs` — the stream
  normalizer (`process_message`);
* `src/hftbacktest/src/live/ipc.rs` — the fan-in channel (`recv_timeout`).

`BTreeMap<i32, f32>` is embedded as a key-sorted association list
`List (Int × ℚ)`; `HashMap<i64, MarketOrder>` as an association list
`List (Int × MarketOrder)`.  `f32` quantities and prices are embedded as exact
rationals; `i32`/`i64` as `Int`, with the saturating `as i32` cast made
explicit.  Rust panics (`unwrap` failures) are an explicit result constructor.
-/

/-- Sentinel `INVALID_MIN` from `crate::depth` (not under src/): the `i32` minimum,
the "no bid" sentinel. -/
def INVALID_MIN : Int := -2147483648

/-- Sentinel `INVALID_MAX` from `crate::depth` (not under src/): the `i32` maximum,
the "no ask" sentinel. -/
def INVALID_MAX : Int := 2147483647

/-- Rust `as i32` on a float value: saturating cast. -/
def i32cast (n : Int) : Int := max INVALID_MIN (min INVALID_MAX n)

/-- Rust `f32::round`: round half away from zero. -/
def rustRound (q : ℚ) : Int := if 0 ≤ q then ⌊q + 1/2⌋ else ⌈q - 1/2⌉

/-- Enum `Side` from `crate::types` (declaration not under src/). -/
inductive Side where
  | Buy
  | Sell
deriving DecidableEq, Repr

/-- Modelled from the spec: the side code constant `BUY` of `crate::types`
(an `i64`; its concrete value is not under src/ and only its distinctness
from `SELL` is relevant here). -/
def BUY : Int := 1

/-- Modelled from the spec: the side code constant `SELL` of `crate::types`. -/
def SELL : Int := -1

/-- Struct `MarketOrder` of l3mbomarketdepth.rs. -/
structure MarketOrder where
  order_id : Int
  side : Side
  price_tick : Int
  qty : ℚ
deriving DecidableEq, Repr

/-- Variants of `BacktestError` relevant to the book (from `crate::backtest`). -/
inductive BacktestError where
  | OrderIdExist
  | OrderNotFound
deriving DecidableEq, Repr

/-- Result of a Rust method that can return `Ok`, return `Err`, or panic
(an `unwrap` failure). -/
inductive RRes (α : Type) where
  | ok (a : α)
  | err (e : BacktestError)
  | panicked
deriving DecidableEq, Repr

/-! ### The depth maps: `BTreeMap<i32, f32>` as a key-sorted association list -/

/-- Operation `BTreeMap::get`: the value at key `k` (first occurrence). -/
def dmGet : List (Int × ℚ) → Int → Option ℚ
  | [], _ => none
  | (k', q') :: rest, k => if k' = k then some q' else dmGet rest k

/-- Aggregate write `*map.entry(k).or_insert(0.0) += q`: sorted insert-or-accumulate. -/
def dmAdd : List (Int × ℚ) → Int → ℚ → List (Int × ℚ)
  | [], k, q => [(k, q)]
  | (k', q') :: rest, k, q =>
    if k < k' then (k, q) :: (k', q') :: rest
    else if k = k' then (k', q' + q) :: rest
    else (k', q') :: dmAdd rest k q

/-- Write through a `get_mut` reference: replace the value at the first
occurrence of key `k`. -/
def dmSet : List (Int × ℚ) → Int → ℚ → List (Int × ℚ)
  | [], _, _ => []
  | (k', q') :: rest, k, q => if k' = k then (k, q) :: rest else (k', q') :: dmSet rest k q

/-- Operation `BTreeMap::remove`: drop the first occurrence of key `k`. -/
def dmErase : List (Int × ℚ) → Int → List (Int × ℚ)
  | [], _ => []
  | (k', q') :: rest, k => if k' = k then rest else (k', q') :: dmErase rest k

/-- The keys of the map, in list order. -/
def dmKeys (m : List (Int × ℚ)) : List Int := m.map Prod.fst

/-- The representation invariant of `BTreeMap`: keys strictly increasing. -/
def dmSorted : List (Int × ℚ) → Bool
  | [] => true
  | [_] => true
  | (k1, _) :: (k2, q2) :: rest => k1 < k2 && dmSorted ((k2, q2) :: rest)

/-- Maximum of a list of ticks (`keys().last()` on a `BTreeMap`). -/
def listMax : List Int → Option Int
  | [] => none
  | x :: xs =>
    some (match listMax xs with
          | none => x
          | some m => max x m)

/-- Minimum of a list of ticks (`keys().next()` on a `BTreeMap`). -/
def listMin : List Int → Option Int
  | [] => none
  | x :: xs =>
    some (match listMin xs with
          | none => x
          | some m => min x m)

/-! ### The orders map: `HashMap<i64, MarketOrder>` as an association list -/

/-- Operation `HashMap::get`. -/
def lookupOrder : List (Int × MarketOrder) → Int → Option MarketOrder
  | [], _ => none
  | (i, o) :: rest, id => if i = id then some o else lookupOrder rest id

/-- Operation `Entry::Vacant::insert`. -/
def insertOrder (os : List (Int × MarketOrder)) (id : Int) (o : MarketOrder) :
    List (Int × MarketOrder) :=
  (id, o) :: os

/-- Operation `HashMap::remove`: drop the first occurrence. -/
def eraseOrder : List (Int × MarketOrder) → Int → List (Int × MarketOrder)
  | [], _ => []
  | (i, o) :: rest, id => if i = id then rest else (i, o) :: eraseOrder rest id

/-- Write through a `get_mut` reference: replace the order at key `id`. -/
def setOrder : List (Int × MarketOrder) → Int → MarketOrder → List (Int × MarketOrder)
  | [], _, _ => []
  | (i, o) :: rest, id, o' => if i = id then (id, o') :: rest else (i, o) :: setOrder rest id o'

/-! ### The book -/

/-- Struct `L3MBOMarketDepth` of l3mbomarketdepth.rs. -/
structure L3MBOMarketDepth where
  tick_size : ℚ
  lot_size : ℚ
  timestamp : Int
  bid_depth : List (Int × ℚ)
  ask_depth : List (Int × ℚ)
  orders : List (Int × MarketOrder)
  best_bid_tick : Int
  best_ask_tick : Int
deriving DecidableEq, Repr

/-- Method `L3MBOMarketDepth::add`: aggregate the order's qty into its side's depth
first, then insert into `orders`, failing with `OrderIdExist` when the id is
already present (the depth mutation is not rolled back). -/
def add (b : L3MBOMarketDepth) (order : MarketOrder) :
    L3MBOMarketDepth × RRes Unit :=
  let b1 :=
    if order.side = Side.Buy then
      { b with bid_depth := dmAdd b.bid_depth order.price_tick order.qty }
    else
      { b with ask_depth := dmAdd b.ask_depth order.price_tick order.qty }
  match lookupOrder b1.orders order.order_id with
  | some _ => (b1, RRes.err BacktestError.OrderIdExist)
  | none => ({ b1 with orders := insertOrder b1.orders order.order_id order }, RRes.ok ())

/-- Method `add_buy_order` of the `L3MarketDepth` impl. -/
def add_buy_order (b : L3MBOMarketDepth) (order_id : Int) (px qty : ℚ)
    (_timestamp : Int) : L3MBOMarketDepth × RRes (Int × Int) :=
  let price_tick := i32cast (rustRound (px / b.tick_size))
  match add b ⟨order_id, Side.Buy, price_tick, qty⟩ with
  | (b1, RRes.err e) => (b1, RRes.err e)
  | (b1, RRes.panicked) => (b1, RRes.panicked)
  | (b1, RRes.ok _) =>
    let prev_best_tick := b1.best_bid_tick
    let b2 :=
      if price_tick > b1.best_bid_tick then
        { b1 with best_bid_tick := (listMax (dmKeys b1.bid_depth)).getD INVALID_MIN }
      else b1
    (b2, RRes.ok (prev_best_tick, b2.best_bid_tick))

/-- Method `add_sell_order` of the `L3MarketDepth` impl. -/
def add_sell_order (b : L3MBOMarketDepth) (order_id : Int) (px qty : ℚ)
    (_timestamp : Int) : L3MBOMarketDepth × RRes (Int × Int) :=
  let price_tick := i32cast (rustRound (px / b.tick_size))
  match add b ⟨order_id, Side.Sell, price_tick, qty⟩ with
  | (b1, RRes.err e) => (b1, RRes.err e)
  | (b1, RRes.panicked) => (b1, RRes.panicked)
  | (b1, RRes.ok _) =>
    let prev_best_tick := b1.best_ask_tick
    let b2 :=
      if price_tick < b1.best_ask_tick then
        { b1 with best_ask_tick := (listMin (dmKeys b1.ask_depth)).getD INVALID_MAX }
      else b1
    (b2, RRes.ok (prev_best_tick, b2.best_ask_tick))

/-- Method `delete_order` of the `L3MarketDepth` impl.  The best-tick caches are not
recomputed. -/
def delete_order (b : L3MBOMarketDepth) (order_id : Int) (_timestamp : Int) :
    L3MBOMarketDepth × RRes Unit :=
  match lookupOrder b.orders order_id with
  | none => (b, RRes.err BacktestError.OrderNotFound)
  | some order =>
    let b0 := { b with orders := eraseOrder b.orders order_id }
    if order.side = Side.Buy then
      match dmGet b0.bid_depth order.price_tick with
      | none => (b0, RRes.panicked)
      | some depth_qty =>
        let newq := depth_qty - order.qty
        let b1 := { b0 with bid_depth := dmSet b0.bid_depth order.price_tick newq }
        if i32cast (rustRound (newq / b0.lot_size)) = 0 then
          ({ b1 with bid_depth := dmErase b1.bid_depth order.price_tick }, RRes.ok ())
        else (b1, RRes.ok ())
    else
      match dmGet b0.ask_depth order.price_tick with
      | none => (b0, RRes.panicked)
      | some depth_qty =>
        let newq := depth_qty - order.qty
        let b1 := { b0 with ask_depth := dmSet b0.ask_depth order.price_tick newq }
        if i32cast (rustRound (newq / b0.lot_size)) = 0 then
          ({ b1 with ask_depth := dmErase b1.ask_depth order.price_tick }, RRes.ok ())
        else (b1, RRes.ok ())

/-- Method `modify_order` of the `L3MarketDepth` impl.  Note the mirrored defect of
the source (l3mbomarketdepth.rs line 153): in the sell-side, price-changed
path, the emptied level is removed from `bid_depth`, not `ask_depth`, and the
`remove(..).unwrap()` panics when `bid_depth` has no such key. -/
def modify_order (b : L3MBOMarketDepth) (order_id : Int) (px qty : ℚ)
    (_timestamp : Int) : L3MBOMarketDepth × RRes (Int × Int × Int) :=
  match lookupOrder b.orders order_id with
  | none => (b, RRes.err BacktestError.OrderNotFound)
  | some order =>
    if order.side = Side.Buy then
      let price_tick := i32cast (rustRound (px / b.tick_size))
      if price_tick ≠ order.price_tick then
        match dmGet b.bid_depth order.price_tick with
        | none => (b, RRes.panicked)
        | some depth_qty =>
          let newq := depth_qty - order.qty
          let b1 := { b with bid_depth := dmSet b.bid_depth order.price_tick newq }
          let b2 :=
            if i32cast (rustRound (newq / b.lot_size)) = 0 then
              { b1 with bid_depth := dmErase b1.bid_depth order.price_tick }
            else b1
          let order' : MarketOrder := { order with price_tick := price_tick, qty := qty }
          let b3 := { b2 with orders := setOrder b2.orders order_id order' }
          let b4 := { b3 with bid_depth := dmAdd b3.bid_depth price_tick qty }
          let prev_best_tick := b4.best_bid_tick
          let b5 :=
            if price_tick > b4.best_bid_tick then
              { b4 with best_bid_tick := (listMax (dmKeys b4.bid_depth)).getD INVALID_MIN }
            else b4
          (b5, RRes.ok (BUY, prev_best_tick, b5.best_bid_tick))
      else
        match dmGet b.bid_depth order.price_tick with
        | none => (b, RRes.panicked)
        | some depth_qty =>
          let b1 := { b with bid_depth := dmSet b.bid_depth order.price_tick (depth_qty + qty - order.qty) }
          let b2 := { b1 with orders := setOrder b1.orders order_id { order with qty := qty } }
          (b2, RRes.ok (BUY, b.best_bid_tick, b.best_bid_tick))
    else
      let price_tick := i32cast (rustRound (px / b.tick_size))
      if price_tick ≠ order.price_tick then
        match dmGet b.ask_depth order.price_tick with
        | none => (b, RRes.panicked)
        | some depth_qty =>
          let newq := depth_qty - order.qty
          let b1 := { b with ask_depth := dmSet b.ask_depth order.price_tick newq }
          match
            (if i32cast (rustRound (newq / b.lot_size)) = 0 then
              (if (dmGet b1.bid_depth order.price_tick).isSome then
                some { b1 with bid_depth := dmErase b1.bid_depth order.price_tick }
              else none)
            else some b1) with
          | none => (b1, RRes.panicked)
          | some b2 =>
            let order' : MarketOrder := { order with price_tick := price_tick, qty := qty }
            let b3 := { b2 with orders := setOrder b2.orders order_id order' }
            let b4 := { b3 with ask_depth := dmAdd b3.ask_depth price_tick qty }
            let prev_best_tick := b4.best_ask_tick
            let b5 :=
              if price_tick < b4.best_ask_tick then
                { b4 with best_ask_tick := (listMin (dmKeys b4.ask_depth)).getD INVALID_MAX }
              else b4
            (b5, RRes.ok (SELL, prev_best_tick, b5.best_ask_tick))
      else
        match dmGet b.ask_depth order.price_tick with
        | none => (b, RRes.panicked)
        | some depth_qty =>
          let b1 := { b with ask_depth := dmSet b.ask_depth order.price_tick (depth_qty + qty - order.qty) }
          let b2 := { b1 with orders := setOrder b1.orders order_id { order with qty := qty } }
          (b2, RRes.ok (SELL, b.best_ask_tick, b.best_ask_tick))

/-- Method `clear_depth` of the `MarketDepth` impl: clears the whole given side
(`clear_upto_price` is ignored by the source). -/
def clear_depth (b : L3MBOMarketDepth) (side : Int) (_clear_upto_price : ℚ) :
    L3MBOMarketDepth :=
  if side = BUY then { b with bid_depth := [] }
  else { b with ask_depth := [] }

/-- Query `best_bid_tick`: computed from `bid_depth`'s maximum key,
never from the cached field. -/
def best_bid_tick (b : L3MBOMarketDepth) : Int :=
  (listMax (dmKeys b.bid_depth)).getD INVALID_MIN

/-- Query `best_ask_tick`: computed from `ask_depth`'s minimum key,
never from the cached field. -/
def best_ask_tick (b : L3MBOMarketDepth) : Int :=
  (listMin (dmKeys b.ask_depth)).getD INVALID_MAX

/-- Query `best_bid`. -/
def best_bid (b : L3MBOMarketDepth) : ℚ :=
  (best_bid_tick b : ℚ) * b.tick_size

/-- Query `best_ask`. -/
def best_ask (b : L3MBOMarketDepth) : ℚ :=
  (best_ask_tick b : ℚ) * b.tick_size

/-- Query `bid_qty_at_tick`. -/
def bid_qty_at_tick (b : L3MBOMarketDepth) (price_tick : Int) : ℚ :=
  (dmGet b.bid_depth price_tick).getD 0

/-- Query `ask_qty_at_tick`. -/
def ask_qty_at_tick (b : L3MBOMarketDepth) (price_tick : Int) : ℚ :=
  (dmGet b.ask_depth price_tick).getD 0

/-- An empty book with the given tick and lot sizes and the sentinel best
ticks. -/
def emptyBook (ts ls : ℚ) : L3MBOMarketDepth :=
  { tick_size := ts
    lot_size := ls
    timestamp := 0
    bid_depth := []
    ask_depth := []
    orders := []
    best_bid_tick := INVALID_MIN
    best_ask_tick := INVALID_MAX }

/-! ### Market-data stream client (market_data_stream.rs) -/

/-- The closed enum of feed event codes (`crate::types`, not under src/; the
numeric values are irrelevant here). -/
inductive EvCode where
  | LOCAL_BID_DEPTH_EVENT
  | LOCAL_ASK_DEPTH_EVENT
  | LOCAL_BUY_TRADE_EVENT
  | LOCAL_SELL_TRADE_EVENT
deriving DecidableEq, Repr

/-- The normalized feed `Event` record. -/
structure Event where
  ev : EvCode
  exch_ts : Int
  local_ts : Int
  order_id : Int
  px : ℚ
  qty : ℚ
  ival : Int
  fval : ℚ
deriving DecidableEq, Repr

/-- Struct `stream::Depth`: a `DepthUpdate` payload, price/qty levels still as
strings. -/
structure DepthUpdateMsg where
  symbol : String
  transaction_time : Int
  first_update_id : Int
  last_update_id : Int
  prev_update_id : Int
  bids : List (String × String)
  asks : List (String × String)

/-- Struct `stream::Trade`: a `Trade` payload. -/
structure TradeMsg where
  symbol : String
  transaction_time : Int
  price : String
  qty : String
  is_the_buyer_the_market_maker : Bool

/-- Union `stream::Stream`: the discriminated union of inbound payloads handled by
`process_message`. -/
inductive StreamMsg where
  | DepthUpdate (d : DepthUpdateMsg)
  | Trade (t : TradeMsg)

/-- Modelled from the spec: Rust `str::to_lowercase` (standard library, not
repository code), used to normalize symbols to lower case before keying. -/
def toLowercase (s : String) : String := ⟨s.data.map Char.toLower⟩

/-- Lookup in the `HashMap<String, i64>` map `prev_u`. -/
def lookupPrevU : List (String × Int) → String → Option Int
  | [], _ => none
  | (s, v) :: rest, sym => if s = sym then some v else lookupPrevU rest sym

/-- Write `*prev_u.entry(sym).or_insert(v) = v`: after this the entry holds `v`
whether or not it was present. -/
def setPrevU : List (String × Int) → String → Int → List (String × Int)
  | [], sym, v => [(sym, v)]
  | (s, w) :: rest, sym, v => if s = sym then (sym, v) :: rest else (s, w) :: setPrevU rest sym v

/-- Modelled from the spec: `parse_px_qty_tup` (`crate::utils`, not under
src/) parses one price string and one quantity string to floats; malformed
input fails.  The elementwise string parser is abstracted as the parameter
`p`. -/
def parse_px_qty_tup (p : String → String → Option (ℚ × ℚ))
    (px qty : String) : Option (ℚ × ℚ) :=
  p px qty

/-- Modelled from the spec: `parse_depth` (`crate::utils`, not under src/)
parses every `[px, qty]` string pair of the bid and ask arrays elementwise,
preserving order, and fails if any pair is malformed. -/
def parse_depth (p : String → String → Option (ℚ × ℚ))
    (bids asks : List (String × String)) :
    Option (List (ℚ × ℚ) × List (ℚ × ℚ)) :=
  match bids.mapM (fun pr => p pr.1 pr.2), asks.mapM (fun pr => p pr.1 pr.2) with
  | some bs, some ks => some (bs, ks)
  | _, _ => none

/-- A bid-level feed event of `process_message` / `process_snapshot`. -/
def bidDepthEvent (transaction_time now : Int) (pq : ℚ × ℚ) : Event :=
  { ev := EvCode.LOCAL_BID_DEPTH_EVENT
    exch_ts := transaction_time * 1000000
    local_ts := now
    order_id := 0
    px := pq.1
    qty := pq.2
    ival := 0
    fval := 0 }

/-- An ask-level feed event of `process_message` / `process_snapshot`. -/
def askDepthEvent (transaction_time now : Int) (pq : ℚ × ℚ) : Event :=
  { ev := EvCode.LOCAL_ASK_DEPTH_EVENT
    exch_ts := transaction_time * 1000000
    local_ts := now
    order_id := 0
    px := pq.1
    qty := pq.2
    ival := 0
    fval := 0 }

/-- Method `MarketDataStream::process_message`, as a state transformer on the
`prev_u` map.  `p` is the abstracted string parser, `now` the wall clock read
for `local_ts`.  Returns the new `prev_u` map, the list of
`(symbol, event)` feed emissions in order, and the list of symbols for which
a detached REST snapshot fetch was spawned. -/
def process_message (p : String → String → Option (ℚ × ℚ)) (now : Int)
    (prev_u : List (String × Int)) (msg : StreamMsg) :
    List (String × Int) × List (String × Event) × List String :=
  match msg with
  | StreamMsg.DepthUpdate data =>
    let sym := toLowercase data.symbol
    let restReq := if (lookupPrevU prev_u sym).isNone then [sym] else []
    let prev_u1 := setPrevU prev_u sym data.last_update_id
    match parse_depth p data.bids data.asks with
    | some (bids, asks) =>
      (prev_u1,
       bids.map (fun pq => (sym, bidDepthEvent data.transaction_time now pq)) ++
         asks.map (fun pq => (sym, askDepthEvent data.transaction_time now pq)),
       restReq)
    | none => (prev_u1, [], restReq)
  | StreamMsg.Trade data =>
    match parse_px_qty_tup p data.price data.qty with
    | some (px, qty) =>
      (prev_u,
       [(toLowercase data.symbol,
         { ev :=
             if data.is_the_buyer_the_market_maker then EvCode.LOCAL_SELL_TRADE_EVENT
             else EvCode.LOCAL_BUY_TRADE_EVENT
           exch_ts := data.transaction_time * 1000000
           local_ts := now
           order_id := 0
           px := px
           qty := qty
           ival := 0
           fval := 0 })],
       [])
    | none => (prev_u, [], [])

/-! ### IPC fan-in channel (ipc.rs) -/

/-- Constant `TO_ALL`: the broadcast routing id. -/
def TO_ALL : Nat := 0

/-- Enum `iceoryx2::NodeEvent`. -/
inductive NodeEv where
  | Tick
  | TerminationRequest
  | InterruptSignal
deriving DecidableEq, Repr

/-- The outcome of one `IceoryxReceiver::receive` poll: an error, no sample,
or a sample carrying the header's `dst_id` and the decoded event. -/
inductive RecvOutcome (α : Type) where
  | fail (s : String)
  | empty
  | msg (dst : Nat) (ev : α)
deriving DecidableEq, Repr

/-- The environment of one iteration of the `recv_timeout` loop: the elapsed
monotonic time at the loop head (ns), the `node.wait` outcome, and — when the
node ticks — what the polled endpoint's `receive` returns. -/
structure StepInput (α : Type) where
  elapsed : Nat
  nodeEv : NodeEv
  recv : RecvOutcome α
deriving DecidableEq, Repr

/-- Variants of `BotError` surfaced by the channel (`crate::live`). -/
inductive BotError where
  | Timeout
  | Interrupted
  | Custom (s : String)
  | AssetNotFound
deriving DecidableEq, Repr

/-- Method `PubSubList::recv_timeout` over a finite trace of loop-iteration inputs.
`id` is the strategy's routing id, `n` the number of endpoints, `i` the
round-robin index `pubsub_i`.  Returns `none` when the trace is exhausted
with the loop still running. -/
def recv_timeout {α : Type} (id : Nat) (timeout : Nat) (n : Nat) :
    Nat → List (StepInput α) → Option (Except BotError α)
  | _, [] => none
  | i, step :: rest =>
    if step.elapsed > timeout then some (Except.error BotError.Timeout)
    else
      match step.nodeEv with
      | NodeEv.Tick =>
        let i1 := if i + 1 = n then 0 else i + 1
        match step.recv with
        | RecvOutcome.fail s => some (Except.error (BotError.Custom s))
        | RecvOutcome.empty => recv_timeout id timeout n i1 rest
        | RecvOutcome.msg dst ev =>
          if dst = 0 ∨ dst = id then some (Except.ok ev)
          else recv_timeout id timeout n i1 rest
      | _ => some (Except.error BotError.Interrupted)

/-! ### Depth-map lemmas -/

theorem i32cast_lb (n : Int) : INVALID_MIN ≤ i32cast n := le_max_left _ _

theorem i32cast_ub (n : Int) : i32cast n ≤ INVALID_MAX := by
  unfold i32cast
  refine max_le (by norm_num [INVALID_MIN, INVALID_MAX]) (min_le_left _ _)

theorem listMax_cons (x : Int) (xs : List Int) :
    listMax (x :: xs) = some (max x ((listMax xs).getD x)) := by
  cases h : listMax xs <;> simp [listMax, h]

theorem listMin_cons (x : Int) (xs : List Int) :
    listMin (x :: xs) = some (min x ((listMin xs).getD x)) := by
  cases h : listMin xs <;> simp [listMin, h]

theorem dmKeys_cons (k : Int) (v : ℚ) (rest : List (Int × ℚ)) :
    dmKeys ((k, v) :: rest) = k :: dmKeys rest := rfl

theorem listMax_dmAdd (m : List (Int × ℚ)) (t : Int) (q : ℚ) :
    listMax (dmKeys (dmAdd m t q)) = some (max t ((listMax (dmKeys m)).getD t)) := by
  induction m with
  | nil => simp [dmAdd, dmKeys, listMax]
  | cons hd rest ih =>
    obtain ⟨k, v⟩ := hd
    rcases lt_trichotomy t k with h | h | h
    · simp only [dmAdd, if_pos h, dmKeys_cons, listMax_cons]
    · subst h
      simp only [dmAdd, lt_irrefl, if_false, eq_self_iff_true, if_true, dmKeys_cons,
        listMax_cons, Option.getD_some]
      rw [← max_assoc, max_self]
    · simp only [dmAdd, if_neg (lt_asymm h), if_neg (ne_of_gt h), dmKeys_cons,
        listMax_cons, ih, Option.getD_some]
      cases hL : listMax (dmKeys rest) with
      | none =>
        simp only [hL, Option.getD_none, Option.getD_some, max_self]
        rw [max_comm]
      | some M =>
        simp only [hL, Option.getD_some]
        rw [max_left_comm]

theorem listMin_dmAdd (m : List (Int × ℚ)) (t : Int) (q : ℚ) :
    listMin (dmKeys (dmAdd m t q)) = some (min t ((listMin (dmKeys m)).getD t)) := by
  induction m with
  | nil => simp [dmAdd, dmKeys, listMin]
  | cons hd rest ih =>
    obtain ⟨k, v⟩ := hd
    rcases lt_trichotomy t k with h | h | h
    · simp only [dmAdd, if_pos h, dmKeys_cons, listMin_cons]
    · subst h
      simp only [dmAdd, lt_irrefl, if_false, eq_self_iff_true, if_true, dmKeys_cons,
        listMin_cons, Option.getD_some]
      rw [← min_assoc, min_self]
    · simp only [dmAdd, if_neg (lt_asymm h), if_neg (ne_of_gt h), dmKeys_cons,
        listMin_cons, ih, Option.getD_some]
      cases hL : listMin (dmKeys rest) with
      | none =>
        simp only [hL, Option.getD_none, Option.getD_some, min_self]
        rw [min_comm]
      | some M =>
        simp only [hL, Option.getD_some]
        rw [min_left_comm]

theorem dmSorted_tail (k : Int) (v : ℚ) (rest : List (Int × ℚ))
    (h : dmSorted ((k, v) :: rest) = true) : dmSorted rest = true := by
  cases rest with
  | nil => simp [dmSorted]
  | cons hd tl =>
    obtain ⟨k2, v2⟩ := hd
    simp only [dmSorted, Bool.and_eq_true, decide_eq_true_eq] at h
    exact h.2

theorem dmSorted_head_lt :
    ∀ (rest : List (Int × ℚ)) (k : Int) (v : ℚ),
      dmSorted ((k, v) :: rest) = true → ∀ p ∈ rest, k < p.1 := by
  intro rest
  induction rest with
  | nil => intro k v _ p hp; simp at hp
  | cons hd tl ih =>
    obtain ⟨k2, v2⟩ := hd
    intro k v h p hp
    simp only [dmSorted, Bool.and_eq_true, decide_eq_true_eq] at h
    rcases List.mem_cons.mp hp with rfl | hp2
    · exact h.1
    · exact lt_trans h.1 (ih k2 v2 h.2 p hp2)

theorem dmGet_eq_none (m : List (Int × ℚ)) (t : Int) (h : ∀ p ∈ m, t < p.1) :
    dmGet m t = none := by
  induction m with
  | nil => rfl
  | cons hd rest ih =>
    obtain ⟨k, v⟩ := hd
    have hk : t < k := h (k, v) (List.mem_cons_self _ _)
    simp only [dmGet, if_neg (ne_of_gt hk)]
    exact ih fun p hp => h p (List.mem_cons_of_mem _ hp)

theorem dmGet_dmAdd_self (m : List (Int × ℚ)) (t : Int) (q : ℚ)
    (hs : dmSorted m = true) :
    dmGet (dmAdd m t q) t = some ((dmGet m t).getD 0 + q) := by
  induction m with
  | nil => simp [dmAdd, dmGet]
  | cons hd rest ih =>
    obtain ⟨k, v⟩ := hd
    rcases lt_trichotomy t k with h | h | h
    · have hrest : dmGet rest t = none :=
        dmGet_eq_none _ _ fun p hp => lt_trans h (dmSorted_head_lt rest k v hs p hp)
      simp [dmAdd, if_pos h, dmGet, if_neg (ne_of_gt h), hrest]
    · subst h
      simp [dmAdd, dmGet, add_comm]
    · simp only [dmAdd, if_neg (lt_asymm h), if_neg (ne_of_gt h), dmGet,
        if_neg (ne_of_lt h), ih (dmSorted_tail _ _ _ hs)]

theorem dmGet_dmSet_self (m : List (Int × ℚ)) (t : Int) (v x : ℚ)
    (h : dmGet m t = some x) : dmGet (dmSet m t v) t = some v := by
  induction m with
  | nil => simp [dmGet] at h
  | cons hd rest ih =>
    obtain ⟨k, w⟩ := hd
    by_cases hk : k = t
    · simp [dmSet, hk, dmGet]
    · simp only [dmGet, if_neg hk] at h
      simp only [dmSet, if_neg hk, dmGet, if_neg hk]
      exact ih h

theorem dmGet_dmErase_self (m : List (Int × ℚ)) (t : Int)
    (hs : dmSorted m = true) : dmGet (dmErase m t) t = none := by
  induction m with
  | nil => rfl
  | cons hd rest ih =>
    obtain ⟨k, v⟩ := hd
    by_cases hk : k = t
    · subst hk
      simp only [dmErase, if_pos rfl]
      exact dmGet_eq_none _ _ (dmSorted_head_lt rest k v hs)
    · simp only [dmErase, if_neg hk, dmGet, if_neg hk]
      exact ih (dmSorted_tail _ _ _ hs)

theorem dmErase_dmSet_dmAdd (m : List (Int × ℚ)) (t : Int) (q v : ℚ)
    (h : dmGet m t = none) : dmErase (dmSet (dmAdd m t q) t v) t = m := by
  induction m with
  | nil => simp [dmAdd, dmSet, dmErase]
  | cons hd rest ih =>
    obtain ⟨k, w⟩ := hd
    have hk : k ≠ t := by
      intro rfl'
      subst rfl'
      simp [dmGet] at h
    have hrest : dmGet rest t = none := by
      simpa [dmGet, if_neg hk] using h
    rcases lt_trichotomy t k with hlt | heq | hgt
    · simp [dmAdd, if_pos hlt, dmSet, dmErase]
    · exact absurd heq.symm hk
    · simp only [dmAdd, if_neg (lt_asymm hgt), if_neg (ne_of_gt hgt), dmSet,
        if_neg hk, dmErase, if_neg hk]
      rw [ih hrest]

theorem dmSet_dmAdd_cancel (m : List (Int × ℚ)) (t : Int) (q x : ℚ)
    (hs : dmSorted m = true) (h : dmGet m t = some x) :
    dmSet (dmAdd m t q) t x = m := by
  induction m with
  | nil => simp [dmGet] at h
  | cons hd rest ih =>
    obtain ⟨k, w⟩ := hd
    rcases lt_trichotomy t k with hlt | heq | hgt
    · exfalso
      have hget : dmGet ((k, w) :: rest) t = none := by
        refine dmGet_eq_none _ _ ?_
        intro p hp
        rcases List.mem_cons.mp hp with rfl | hp2
        · exact hlt
        · exact lt_trans hlt (dmSorted_head_lt rest k w hs p hp2)
      rw [hget] at h
      exact Option.noConfusion h
    · subst heq
      simp only [dmGet, eq_self_iff_true, if_true, Option.some.injEq] at h
      simp [dmAdd, dmSet, h]
    · have hk : k ≠ t := ne_of_lt hgt
      simp only [dmGet, if_neg hk] at h
      simp only [dmAdd, if_neg (lt_asymm hgt), if_neg (ne_of_gt hgt), dmSet,
        if_neg hk]
      rw [ih (dmSorted_tail _ _ _ hs) h]

theorem rustRound_zero : rustRound 0 = 0 := by
  norm_num [rustRound]

theorem i32cast_zero : i32cast 0 = 0 := by
  norm_num [i32cast, INVALID_MIN, INVALID_MAX, Int.max_def, Int.min_def]

/-! ### Fresh-id behaviour of `add` -/

theorem add_fresh_buy (b : L3MBOMarketDepth) (o : MarketOrder)
    (hside : o.side = Side.Buy) (h : lookupOrder b.orders o.order_id = none) :
    add b o = ({ b with bid_depth := dmAdd b.bid_depth o.price_tick o.qty,
                        orders := insertOrder b.orders o.order_id o }, RRes.ok ()) := by
  simp [add, hside, h]

theorem add_fresh_sell (b : L3MBOMarketDepth) (o : MarketOrder)
    (hside : o.side = Side.Sell) (h : lookupOrder b.orders o.order_id = none) :
    add b o = ({ b with ask_depth := dmAdd b.ask_depth o.price_tick o.qty,
                        orders := insertOrder b.orders o.order_id o }, RRes.ok ()) := by
  have : ¬ o.side = Side.Buy := by rw [hside]; intro hc; exact Side.noConfusion hc
  simp [add, this, h]

/-! ### The best-tick cache invariant (claim C1) -/

/-- The cached best ticks agree with the extrema of the ordered depth maps
(`INVALID_MIN`/`INVALID_MAX` when empty). -/
def BestTickInv (b : L3MBOMarketDepth) : Prop :=
  b.best_bid_tick = (listMax (dmKeys b.bid_depth)).getD INVALID_MIN ∧
  b.best_ask_tick = (listMin (dmKeys b.ask_depth)).getD INVALID_MAX

theorem bestTickInv_add_buy (b : L3MBOMarketDepth) (order_id : Int) (px qty : ℚ)
    (ts : Int) (hInv : BestTickInv b)
    (hfresh : lookupOrder b.orders order_id = none) :
    BestTickInv (add_buy_order b order_id px qty ts).1 := by
  have hadd := add_fresh_buy b
    ⟨order_id, Side.Buy, i32cast (rustRound (px / b.tick_size)), qty⟩ rfl hfresh
  unfold add_buy_order
  dsimp only
  rw [hadd]
  dsimp only
  split
  · exact ⟨rfl, hInv.2⟩
  · rename_i hle
    refine ⟨?_, hInv.2⟩
    show b.best_bid_tick =
      (listMax (dmKeys (dmAdd b.bid_depth (i32cast (rustRound (px / b.tick_size))) qty))).getD
        INVALID_MIN
    rw [listMax_dmAdd]
    cases hL : listMax (dmKeys b.bid_depth) with
    | none =>
      have h1 : b.best_bid_tick = INVALID_MIN := by rw [hInv.1, hL]; rfl
      have h2 : i32cast (rustRound (px / b.tick_size)) = INVALID_MIN :=
        le_antisymm (h1 ▸ not_lt.mp hle) (i32cast_lb _)
      simp [hL, h1, h2]
    | some M =>
      have h1 : b.best_bid_tick = M := by rw [hInv.1, hL]; rfl
      have h2 : i32cast (rustRound (px / b.tick_size)) ≤ M := h1 ▸ not_lt.mp hle
      simp [hL, h1, max_eq_right h2]

theorem bestTickInv_add_sell (b : L3MBOMarketDepth) (order_id : Int) (px qty : ℚ)
    (ts : Int) (hInv : BestTickInv b)
    (hfresh : lookupOrder b.orders order_id = none) :
    BestTickInv (add_sell_order b order_id px qty ts).1 := by
  have hadd := add_fresh_sell b
    ⟨order_id, Side.Sell, i32cast (rustRound (px / b.tick_size)), qty⟩ rfl hfresh
  unfold add_sell_order
  dsimp only
  rw [hadd]
  dsimp only
  split
  · exact ⟨hInv.1, rfl⟩
  · rename_i hge
    refine ⟨hInv.1, ?_⟩
    show b.best_ask_tick =
      (listMin (dmKeys (dmAdd b.ask_depth (i32cast (rustRound (px / b.tick_size))) qty))).getD
        INVALID_MAX
    rw [listMin_dmAdd]
    cases hL : listMin (dmKeys b.ask_depth) with
    | none =>
      have h1 : b.best_ask_tick = INVALID_MAX := by rw [hInv.2, hL]; rfl
      have h2 : i32cast (rustRound (px / b.tick_size)) = INVALID_MAX :=
        le_antisymm (i32cast_ub _) (h1 ▸ not_lt.mp hge)
      simp [hL, h1, h2]
    | some M =>
      have h1 : b.best_ask_tick = M := by rw [hInv.2, hL]; rfl
      have h2 : M ≤ i32cast (rustRound (px / b.tick_size)) := h1 ▸ not_lt.mp hge
      simp [hL, h1, min_eq_right h2]

/-- One add operation of the sequence considered in C1. -/
inductive AddOp where
  | buy (order_id : Int) (px qty : ℚ) (timestamp : Int)
  | sell (order_id : Int) (px qty : ℚ) (timestamp : Int)

/-- The order id carried by an add operation. -/
def AddOp.oid : AddOp → Int
  | AddOp.buy i _ _ _ => i
  | AddOp.sell i _ _ _ => i

/-- Apply one add operation to the book (keeping the new state). -/
def applyAddOp (b : L3MBOMarketDepth) : AddOp → L3MBOMarketDepth
  | AddOp.buy i px q ts => (add_buy_order b i px q ts).1
  | AddOp.sell i px q ts => (add_sell_order b i px q ts).1

/-- Apply a sequence of add operations left to right. -/
def applyAddOps : List AddOp → L3MBOMarketDepth → L3MBOMarketDepth
  | [], b => b
  | op :: rest, b => applyAddOps rest (applyAddOp b op)

/-- Every operation of the sequence carries an order id that is fresh at its
point of application (the "unique order ids" hypothesis of C1). -/
def FreshSeq : List AddOp → L3MBOMarketDepth → Prop
  | [], _ => True
  | op :: rest, b => lookupOrder b.orders op.oid = none ∧ FreshSeq rest (applyAddOp b op)

/-! ### Claim C1 (amended): the cache invariant under add sequences -/

/-- Claim C1 (amended): For every sequence consisting of
`add_buy_order`/`add_sell_order` operations with fresh order ids, the cached
`best_bid_tick` stays equal to the maximum key of `bid_depth`
(`INVALID_MIN` when empty), and `best_ask_tick` to the minimum key of
`ask_depth` (`INVALID_MAX` when empty) — this holds after each operation
since every prefix of such a sequence is such a sequence.  `delete_order`
and `modify_order` are excluded: they do not restore the cache (see the
counterexample). -/
theorem bestTickInv_preserved_by_add_sequences :
    ∀ (ops : List AddOp) (b : L3MBOMarketDepth),
      BestTickInv b → FreshSeq ops b → BestTickInv (applyAddOps ops b) := by
  intro ops
  induction ops with
  | nil => intro b hInv _; exact hInv
  | cons op rest ih =>
    intro b hInv hFresh
    obtain ⟨hfresh, hrest⟩ := hFresh
    cases op with
    | buy i px q ts =>
      exact ih _ (bestTickInv_add_buy b i px q ts hInv hfresh) hrest
    | sell i px q ts =>
      exact ih _ (bestTickInv_add_sell b i px q ts hInv hfresh) hrest

/-- Claim C1 counterexample: The claim as stated — the cache invariant holds
after *every* operation, deletes included — is false: on an empty book
(`tick_size = lot_size = 1`), `add_buy_order(1, 1, 5, 0)` followed by
`delete_order(1, 0)` leaves `bid_depth` empty while the cached
`best_bid_tick` is still `1`, not `INVALID_MIN`. -/
theorem bestTickInv_fails_after_delete :
    (delete_order (add_buy_order (emptyBook 1 1) 1 1 5 0).1 1 0).1.bid_depth = [] ∧
    (delete_order (add_buy_order (emptyBook 1 1) 1 1 5 0).1 1 0).1.best_bid_tick = 1 ∧
    (1 : Int) ≠ INVALID_MIN := by
  norm_num [delete_order, add_buy_order, add, emptyBook, lookupOrder, insertOrder,
    eraseOrder, dmAdd, dmSet, dmErase, dmGet, dmKeys, listMax, rustRound, i32cast,
    INVALID_MIN, INVALID_MAX, Int.max_def, Int.min_def]

/-- Witness for the amended C1 at a concrete add sequence. -/
theorem bestTickInv_preserved_by_add_sequences_witness :
    BestTickInv (emptyBook 1 1) ∧
    FreshSeq [AddOp.buy 1 2 5 0, AddOp.sell 2 5 7 0] (emptyBook 1 1) ∧
    BestTickInv (applyAddOps [AddOp.buy 1 2 5 0, AddOp.sell 2 5 7 0] (emptyBook 1 1)) := by
  have h1 : BestTickInv (emptyBook 1 1) := ⟨rfl, rfl⟩
  have h2 : FreshSeq [AddOp.buy 1 2 5 0, AddOp.sell 2 5 7 0] (emptyBook 1 1) := by
    norm_num [FreshSeq, applyAddOp, AddOp.oid, add_buy_order, add_sell_order, add,
      emptyBook, lookupOrder, insertOrder, dmAdd, dmKeys, listMax, listMin,
      rustRound, i32cast, INVALID_MIN, INVALID_MAX, Int.max_def, Int.min_def]
  exact ⟨h1, h2, bestTickInv_preserved_by_add_sequences _ _ h1 h2⟩

/-! ### Claim C10: clear_depth frame -/

/-- Claim C10: For every book state, side code and `upto_px` value,
`clear_depth(side, upto_px)` empties only the given side's depth map
(`bid_depth` when the side is `BUY`, otherwise `ask_depth`); the opposite
side's map, the orders map and the cached best ticks are unchanged. -/
theorem clear_depth_clears_only_given_side (b : L3MBOMarketDepth) (side : Int)
    (upto_px : ℚ) :
    (clear_depth b side upto_px).bid_depth = (if side = BUY then [] else b.bid_depth) ∧
    (clear_depth b side upto_px).ask_depth = (if side = BUY then b.ask_depth else []) ∧
    (clear_depth b side upto_px).orders = b.orders ∧
    (clear_depth b side upto_px).best_bid_tick = b.best_bid_tick ∧
    (clear_depth b side upto_px).best_ask_tick = b.best_ask_tick ∧
    (clear_depth b side upto_px).tick_size = b.tick_size ∧
    (clear_depth b side upto_px).lot_size = b.lot_size := by
  unfold clear_depth
  by_cases h : side = BUY <;> simp [h]

/-! ### Claim C8: duplicate-id add mutates depth but not orders -/

theorem add_dup_buy (b : L3MBOMarketDepth) (o : MarketOrder)
    (hside : o.side = Side.Buy) (x : MarketOrder)
    (h : lookupOrder b.orders o.order_id = some x) :
    add b o = ({ b with bid_depth := dmAdd b.bid_depth o.price_tick o.qty },
               RRes.err BacktestError.OrderIdExist) := by
  simp [add, hside, h]

theorem add_dup_sell (b : L3MBOMarketDepth) (o : MarketOrder)
    (hside : o.side = Side.Sell) (x : MarketOrder)
    (h : lookupOrder b.orders o.order_id = some x) :
    add b o = ({ b with ask_depth := dmAdd b.ask_depth o.price_tick o.qty },
               RRes.err BacktestError.OrderIdExist) := by
  have hnb : ¬ o.side = Side.Buy := by rw [hside]; intro hc; exact Side.noConfusion hc
  simp [add, hnb, h]

/-- Claim C8: When `add_buy_order` (or `add_sell_order`) is called with an
order id already in the orders map, it returns `OrderIdExist`, yet the
corresponding side's depth level at the order's tick has already been
increased by `qty` — no rollback — while the orders map is unchanged. -/
theorem add_duplicate_id_keeps_depth_mutation (b : L3MBOMarketDepth)
    (order_id : Int) (px qty : ℚ) (ts : Int)
    (hdup : (lookupOrder b.orders order_id).isSome) :
    ((add_buy_order b order_id px qty ts).2 = RRes.err BacktestError.OrderIdExist ∧
     (add_buy_order b order_id px qty ts).1.orders = b.orders ∧
     (add_buy_order b order_id px qty ts).1.ask_depth = b.ask_depth ∧
     (add_buy_order b order_id px qty ts).1.bid_depth =
       dmAdd b.bid_depth (i32cast (rustRound (px / b.tick_size))) qty ∧
     (dmSorted b.bid_depth = true →
       dmGet (add_buy_order b order_id px qty ts).1.bid_depth
           (i32cast (rustRound (px / b.tick_size))) =
         some ((dmGet b.bid_depth (i32cast (rustRound (px / b.tick_size)))).getD 0 + qty))) ∧
    ((add_sell_order b order_id px qty ts).2 = RRes.err BacktestError.OrderIdExist ∧
     (add_sell_order b order_id px qty ts).1.orders = b.orders ∧
     (add_sell_order b order_id px qty ts).1.bid_depth = b.bid_depth ∧
     (add_sell_order b order_id px qty ts).1.ask_depth =
       dmAdd b.ask_depth (i32cast (rustRound (px / b.tick_size))) qty ∧
     (dmSorted b.ask_depth = true →
       dmGet (add_sell_order b order_id px qty ts).1.ask_depth
           (i32cast (rustRound (px / b.tick_size))) =
         some ((dmGet b.ask_depth (i32cast (rustRound (px / b.tick_size)))).getD 0 + qty))) := by
  obtain ⟨x, hx⟩ := Option.isSome_iff_exists.mp hdup
  constructor
  · have haddb := add_dup_buy b
      ⟨order_id, Side.Buy, i32cast (rustRound (px / b.tick_size)), qty⟩ rfl x hx
    unfold add_buy_order
    dsimp only
    rw [haddb]
    exact ⟨rfl, rfl, rfl, rfl, fun hs => dmGet_dmAdd_self _ _ _ hs⟩
  · have hadds := add_dup_sell b
      ⟨order_id, Side.Sell, i32cast (rustRound (px / b.tick_size)), qty⟩ rfl x hx
    unfold add_sell_order
    dsimp only
    rw [hadds]
    exact ⟨rfl, rfl, rfl, rfl, fun hs => dmGet_dmAdd_self _ _ _ hs⟩

/-- A small book that already contains buy order 1 at tick 10. -/
def dupBook : L3MBOMarketDepth :=
  { tick_size := 1
    lot_size := 1
    timestamp := 0
    bid_depth := [(10, 2)]
    ask_depth := []
    orders := [(1, ⟨1, Side.Buy, 10, 2⟩)]
    best_bid_tick := 10
    best_ask_tick := INVALID_MAX }

/-- Witness for C8 on `dupBook`: re-adding id 1 errors, leaves orders alone,
and bumps the bid level at the order's tick by the new qty. -/
theorem add_duplicate_id_keeps_depth_mutation_witness :
    (lookupOrder dupBook.orders 1).isSome = true ∧
    (add_buy_order dupBook 1 10 3 0).2 = RRes.err BacktestError.OrderIdExist ∧
    (add_buy_order dupBook 1 10 3 0).1.orders = dupBook.orders ∧
    dmGet (add_buy_order dupBook 1 10 3 0).1.bid_depth
        (i32cast (rustRound ((10 : ℚ) / dupBook.tick_size))) =
      some ((dmGet dupBook.bid_depth (i32cast (rustRound ((10 : ℚ) / dupBook.tick_size)))).getD 0
        + 3) := by
  have hdup : (lookupOrder dupBook.orders 1).isSome = true := rfl
  have h := add_duplicate_id_keeps_depth_mutation dupBook 1 10 3 0 hdup
  exact ⟨hdup, h.1.1, h.1.2.1, h.1.2.2.2.2 rfl⟩

/-! ### Claim C4: delete_order behaviour -/

theorem dmGet_dmErase_dmSet (m : List (Int × ℚ)) (t : Int) (v : ℚ)
    (hs : dmSorted m = true) : dmGet (dmErase (dmSet m t v) t) t = none := by
  induction m with
  | nil => rfl
  | cons hd rest ih =>
    obtain ⟨k, w⟩ := hd
    by_cases hk : k = t
    · subst hk
      simp only [dmSet, if_pos rfl, dmErase, if_pos rfl]
      exact dmGet_eq_none _ _ (dmSorted_head_lt rest k w hs)
    · simp only [dmSet, if_neg hk, dmErase, if_neg hk, dmGet, if_neg hk]
      exact ih (dmSorted_tail _ _ _ hs)

/-- Claim C4: `delete_order(id, ts)` fails with `OrderNotFound` iff no order
with that id is present.  When the order exists (and its side's level does,
as every reachable book guarantees), it subtracts the recorded qty from that
side's level and removes the level exactly when the residual rounded in lot
units is zero.  Concretely, with `tick_size = 0.01`, `lot_size = 1` and only
`add_buy_order(1, 100.00, 5, ts)` applied, `delete_order(1, _)` leaves
`bid_depth` empty and `bid_qty_at_tick(10000) = 0`. -/
theorem delete_order_behaviour :
    (∀ (b : L3MBOMarketDepth) (order_id ts : Int),
      (delete_order b order_id ts).2 = RRes.err BacktestError.OrderNotFound ↔
        lookupOrder b.orders order_id = none) ∧
    (∀ (b : L3MBOMarketDepth) (order_id ts : Int) (o : MarketOrder) (dq : ℚ),
      lookupOrder b.orders order_id = some o → o.side = Side.Buy →
      dmSorted b.bid_depth = true → dmGet b.bid_depth o.price_tick = some dq →
      (delete_order b order_id ts).2 = RRes.ok () ∧
      (delete_order b order_id ts).1.orders = eraseOrder b.orders order_id ∧
      (delete_order b order_id ts).1.ask_depth = b.ask_depth ∧
      (i32cast (rustRound ((dq - o.qty) / b.lot_size)) = 0 →
        dmGet (delete_order b order_id ts).1.bid_depth o.price_tick = none) ∧
      (i32cast (rustRound ((dq - o.qty) / b.lot_size)) ≠ 0 →
        dmGet (delete_order b order_id ts).1.bid_depth o.price_tick = some (dq - o.qty))) ∧
    (∀ (b : L3MBOMarketDepth) (order_id ts : Int) (o : MarketOrder) (dq : ℚ),
      lookupOrder b.orders order_id = some o → o.side = Side.Sell →
      dmSorted b.ask_depth = true → dmGet b.ask_depth o.price_tick = some dq →
      (delete_order b order_id ts).2 = RRes.ok () ∧
      (delete_order b order_id ts).1.orders = eraseOrder b.orders order_id ∧
      (delete_order b order_id ts).1.bid_depth = b.bid_depth ∧
      (i32cast (rustRound ((dq - o.qty) / b.lot_size)) = 0 →
        dmGet (delete_order b order_id ts).1.ask_depth o.price_tick = none) ∧
      (i32cast (rustRound ((dq - o.qty) / b.lot_size)) ≠ 0 →
        dmGet (delete_order b order_id ts).1.ask_depth o.price_tick = some (dq - o.qty))) ∧
    ((delete_order (add_buy_order (emptyBook (1/100) 1) 1 100 5 0).1 1 0).1.bid_depth = [] ∧
      bid_qty_at_tick (delete_order (add_buy_order (emptyBook (1/100) 1) 1 100 5 0).1 1 0).1
        10000 = 0) := by
  refine ⟨?_, ?_, ?_, ?_⟩
  · intro b order_id ts
    cases h : lookupOrder b.orders order_id with
    | none => simp [delete_order, h]
    | some o =>
      simp only [delete_order, h]
      split_ifs with hside
      · cases hg : dmGet b.bid_depth o.price_tick with
        | none => simp [hg]
        | some dq => simp only [hg]; split_ifs <;> simp
      · cases hg : dmGet b.ask_depth o.price_tick with
        | none => simp [hg]
        | some dq => simp only [hg]; split_ifs <;> simp
  · intro b order_id ts o dq hlook hside hsorted hget
    simp only [delete_order, hlook]
    rw [if_pos hside]
    simp only [hget]
    by_cases hz : i32cast (rustRound ((dq - o.qty) / b.lot_size)) = 0
    · rw [if_pos hz]
      exact ⟨rfl, rfl, rfl, fun _ => dmGet_dmErase_dmSet _ _ _ hsorted,
        fun hc => absurd hz hc⟩
    · rw [if_neg hz]
      exact ⟨rfl, rfl, rfl, fun hc => absurd hc hz,
        fun _ => dmGet_dmSet_self _ _ _ _ hget⟩
  · intro b order_id ts o dq hlook hside hsorted hget
    have hnb : ¬ o.side = Side.Buy := by rw [hside]; intro hc; exact Side.noConfusion hc
    simp only [delete_order, hlook]
    rw [if_neg hnb]
    simp only [hget]
    by_cases hz : i32cast (rustRound ((dq - o.qty) / b.lot_size)) = 0
    · rw [if_pos hz]
      exact ⟨rfl, rfl, rfl, fun _ => dmGet_dmErase_dmSet _ _ _ hsorted,
        fun hc => absurd hz hc⟩
    · rw [if_neg hz]
      exact ⟨rfl, rfl, rfl, fun hc => absurd hc hz,
        fun _ => dmGet_dmSet_self _ _ _ _ hget⟩
  · constructor <;>
      norm_num [delete_order, add_buy_order, add, emptyBook, lookupOrder, insertOrder,
        eraseOrder, bid_qty_at_tick, dmAdd, dmSet, dmErase, dmGet, dmKeys, listMax,
        rustRound, i32cast, INVALID_MIN, INVALID_MAX, Int.max_def, Int.min_def]

/-- Witness for the quantified parts of C4: on `dupBook`, deleting the
present order 1 succeeds and empties its level, deleting the absent order 7
reports `OrderNotFound`. -/
theorem delete_order_behaviour_witness :
    (delete_order dupBook 7 0).2 = RRes.err BacktestError.OrderNotFound ∧
    (delete_order dupBook 1 0).2 = RRes.ok () ∧
    dmGet (delete_order dupBook 1 0).1.bid_depth 10 = none := by
  refine ⟨?_, ?_, ?_⟩
  · exact (delete_order_behaviour.1 dupBook 7 0).mpr rfl
  · exact (delete_order_behaviour.2.1 dupBook 1 0 ⟨1, Side.Buy, 10, 2⟩ 2 rfl rfl rfl rfl).1
  · refine (delete_order_behaviour.2.1 dupBook 1 0 ⟨1, Side.Buy, 10, 2⟩ 2 rfl rfl rfl rfl).2.2.2.1 ?_
    norm_num [rustRound, i32cast, INVALID_MIN, INVALID_MAX, Int.max_def, Int.min_def]

/-! ### Claim C3: add-then-delete round trip -/

theorem add_buy_order_fresh_fields (b : L3MBOMarketDepth) (order_id : Int)
    (px qty : ℚ) (ts : Int) (hfresh : lookupOrder b.orders order_id = none) :
    ∃ c : Int,
      add_buy_order b order_id px qty ts =
        ({ b with
            bid_depth := dmAdd b.bid_depth (i32cast (rustRound (px / b.tick_size))) qty
            orders := insertOrder b.orders order_id
              ⟨order_id, Side.Buy, i32cast (rustRound (px / b.tick_size)), qty⟩
            best_bid_tick := c },
         RRes.ok (b.best_bid_tick, c)) := by
  have hadd := add_fresh_buy b
    ⟨order_id, Side.Buy, i32cast (rustRound (px / b.tick_size)), qty⟩ rfl hfresh
  unfold add_buy_order
  dsimp only
  rw [hadd]
  dsimp only
  split
  · exact ⟨_, rfl⟩
  · exact ⟨b.best_bid_tick, rfl⟩

/-- Claim C3 (amended): For every book state and order id not in the orders
map, `add_buy_order(id, px, qty, ts)` followed by `delete_order(id, ts2)`
succeeds and restores `bid_depth`, `ask_depth` and `orders` (modulo the
cached best ticks) — *provided* that, when the order's tick already carries
a level, that level's qty does not round to zero in lot units.  (Without the
proviso the delete erases the pre-existing level: see the
counterexample.) -/
theorem add_then_delete_round_trip (b : L3MBOMarketDepth) (order_id : Int)
    (px qty : ℚ) (ts ts2 : Int)
    (hfresh : lookupOrder b.orders order_id = none)
    (hsorted : dmSorted b.bid_depth = true)
    (hres : ∀ x, dmGet b.bid_depth (i32cast (rustRound (px / b.tick_size))) = some x →
      i32cast (rustRound (x / b.lot_size)) ≠ 0) :
    (∃ r, (add_buy_order b order_id px qty ts).2 = RRes.ok r) ∧
    (delete_order (add_buy_order b order_id px qty ts).1 order_id ts2).2 = RRes.ok () ∧
    (delete_order (add_buy_order b order_id px qty ts).1 order_id ts2).1.bid_depth =
      b.bid_depth ∧
    (delete_order (add_buy_order b order_id px qty ts).1 order_id ts2).1.ask_depth =
      b.ask_depth ∧
    (delete_order (add_buy_order b order_id px qty ts).1 order_id ts2).1.orders =
      b.orders := by
  obtain ⟨c, hc⟩ := add_buy_order_fresh_fields b order_id px qty ts hfresh
  rw [hc]
  refine ⟨⟨(b.best_bid_tick, c), rfl⟩, ?_⟩
  have hlook : lookupOrder
      (insertOrder b.orders order_id
        ⟨order_id, Side.Buy, i32cast (rustRound (px / b.tick_size)), qty⟩) order_id =
      some ⟨order_id, Side.Buy, i32cast (rustRound (px / b.tick_size)), qty⟩ := by
    simp [insertOrder, lookupOrder]
  have herase : eraseOrder
      (insertOrder b.orders order_id
        ⟨order_id, Side.Buy, i32cast (rustRound (px / b.tick_size)), qty⟩) order_id =
      b.orders := by
    simp [insertOrder, eraseOrder]
  simp only [delete_order, hlook]
  simp only [if_true]
  have hget := dmGet_dmAdd_self b.bid_depth (i32cast (rustRound (px / b.tick_size))) qty hsorted
  simp only [hget]
  cases hbt : dmGet b.bid_depth (i32cast (rustRound (px / b.tick_size))) with
  | none =>
    have hval : (none : Option ℚ).getD 0 + qty - qty = 0 := by simp
    rw [if_pos (by rw [hval, zero_div, rustRound_zero, i32cast_zero])]
    refine ⟨rfl, ?_, rfl, herase⟩
    exact dmErase_dmSet_dmAdd _ _ _ _ hbt
  | some x =>
    have hval : (some x).getD 0 + qty - qty = x := by simp
    rw [if_neg (by rw [hval]; exact hres x hbt)]
    refine ⟨rfl, ?_, rfl, herase⟩
    show dmSet (dmAdd b.bid_depth (i32cast (rustRound (px / b.tick_size))) qty)
        (i32cast (rustRound (px / b.tick_size))) ((some x).getD 0 + qty - qty) =
      b.bid_depth
    rw [hval]
    exact dmSet_dmAdd_cancel _ _ _ _ hsorted hbt

/-- Claim C3 counterexample: The round trip fails when the order's tick already
carries a level whose qty rounds to zero in lot units: on `tick_size =
lot_size = 1`, after `add_buy_order(1, 10, 0.4, 0)` the book has level
`10 ↦ 0.4`; adding order 2 at the same price and deleting it again erases
that level entirely, so `bid_depth` is not restored. -/
theorem add_then_delete_not_round_trip :
    lookupOrder (add_buy_order (emptyBook 1 1) 1 10 (2/5) 0).1.orders 2 = none ∧
    (delete_order
        (add_buy_order (add_buy_order (emptyBook 1 1) 1 10 (2/5) 0).1 2 10 5 0).1
        2 0).1.bid_depth ≠
      (add_buy_order (emptyBook 1 1) 1 10 (2/5) 0).1.bid_depth := by
  norm_num [delete_order, add_buy_order, add, emptyBook, lookupOrder, insertOrder,
    eraseOrder, dmAdd, dmSet, dmErase, dmGet, dmKeys, listMax, rustRound, i32cast,
    INVALID_MIN, INVALID_MAX, Int.max_def, Int.min_def]

/-- Witness for the amended C3 on the empty book. -/
theorem add_then_delete_round_trip_witness :
    lookupOrder (emptyBook 1 1).orders 1 = none ∧
    (delete_order (add_buy_order (emptyBook 1 1) 1 5 3 0).1 1 0).2 = RRes.ok () ∧
    (delete_order (add_buy_order (emptyBook 1 1) 1 5 3 0).1 1 0).1.bid_depth =
      (emptyBook 1 1).bid_depth ∧
    (delete_order (add_buy_order (emptyBook 1 1) 1 5 3 0).1 1 0).1.orders =
      (emptyBook 1 1).orders := by
  have h := add_then_delete_round_trip (emptyBook 1 1) 1 5 3 0 0 rfl rfl
    (by intro x hx; simp [emptyBook, dmGet] at hx)
  exact ⟨rfl, h.2.1, h.2.2.1, h.2.2.2.2⟩

/-! ### Claim C9: read queries never use the cached best ticks -/

/-- Claim C9: The read queries `best_bid_tick`/`best_ask_tick` (and hence
`best_bid`/`best_ask`) are computed from the ordered depth maps — maximum bid
key or `INVALID_MIN`, minimum ask key or `INVALID_MAX` — and are unaffected
by the cached `best_bid_tick`/`best_ask_tick` fields, even when those are
stale (arbitrary `c1`, `c2`). -/
theorem best_tick_queries_ignore_cache (b : L3MBOMarketDepth) (c1 c2 : Int) :
    best_bid_tick { b with best_bid_tick := c1, best_ask_tick := c2 } =
      (listMax (dmKeys b.bid_depth)).getD INVALID_MIN ∧
    best_ask_tick { b with best_bid_tick := c1, best_ask_tick := c2 } =
      (listMin (dmKeys b.ask_depth)).getD INVALID_MAX ∧
    best_bid { b with best_bid_tick := c1, best_ask_tick := c2 } =
      (((listMax (dmKeys b.bid_depth)).getD INVALID_MIN : Int) : ℚ) * b.tick_size ∧
    best_ask { b with best_bid_tick := c1, best_ask_tick := c2 } =
      (((listMin (dmKeys b.ask_depth)).getD INVALID_MAX : Int) : ℚ) * b.tick_size := by
  refine ⟨rfl, rfl, ?_, ?_⟩ <;> simp [best_bid, best_ask, best_bid_tick, best_ask_tick]

/-! ### Claim C2: sell-side cross-level modify mutates the bid map -/

/-- A book whose only order is sell order 1 at ask tick 100 (qty 5), with an
unrelated bid level at tick 100. -/
def sellCrossBook : L3MBOMarketDepth :=
  { tick_size := 1
    lot_size := 1
    timestamp := 0
    bid_depth := [(100, 3)]
    ask_depth := [(100, 5)]
    orders := [(1, ⟨1, Side.Sell, 100, 5⟩)]
    best_bid_tick := 100
    best_ask_tick := 100 }

/-- Claim C2 (defect in the source, mirrored): Moving sell order 1 from tick
100 to tick 101 empties its ask level, but the code then removes key 100
from `bid_depth` (the unrelated bid level disappears) while the zero-qty
level stays in `ask_depth` — contradicting the claim that the ask level is
dropped and the bid map untouched. -/
theorem modify_sell_cross_level_removes_from_bid_depth :
    (modify_order sellCrossBook 1 101 5 0).1.bid_depth = [] ∧
    (modify_order sellCrossBook 1 101 5 0).1.ask_depth = [(100, 0), (101, 5)] ∧
    (modify_order sellCrossBook 1 101 5 0).2 = RRes.ok (SELL, 100, 100) := by
  norm_num [modify_order, sellCrossBook, lookupOrder, setOrder, dmAdd, dmSet, dmErase,
    dmGet, dmKeys, listMin, rustRound, i32cast, INVALID_MIN, INVALID_MAX, SELL,
    Int.max_def, Int.min_def,
    show Side.Sell ≠ Side.Buy from fun h => Side.noConfusion h]

/-! ### Claim C5: depth-diff emissions when prev_u is cached -/

/-- Claim C5: When a `DepthUpdate` arrives with `prev_u` cached for its
symbol, and its levels parse, the client emits one `LOCAL_BID_DEPTH_EVENT`
per bid level followed by one `LOCAL_ASK_DEPTH_EVENT` per ask level, in the
diff's order, every event carrying
`exch_ts = transaction_time * 1_000_000`; no REST snapshot fetch is
spawned. -/
theorem depth_update_with_cached_prev_u_emissions
    (p : String → String → Option (ℚ × ℚ)) (now : Int)
    (prev_u : List (String × Int)) (d : DepthUpdateMsg) (v : Int)
    (hprev : lookupPrevU prev_u (toLowercase d.symbol) = some v)
    (bids asks : List (ℚ × ℚ))
    (hparse : parse_depth p d.bids d.asks = some (bids, asks)) :
    (process_message p now prev_u (StreamMsg.DepthUpdate d)).2.1 =
      bids.map (fun pq => (toLowercase d.symbol, bidDepthEvent d.transaction_time now pq)) ++
        asks.map (fun pq => (toLowercase d.symbol, askDepthEvent d.transaction_time now pq)) ∧
    (∀ e ∈ (process_message p now prev_u (StreamMsg.DepthUpdate d)).2.1,
      e.2.exch_ts = d.transaction_time * 1000000) ∧
    (process_message p now prev_u (StreamMsg.DepthUpdate d)).2.2 = [] := by
  have hemit : (process_message p now prev_u (StreamMsg.DepthUpdate d)).2.1 =
      bids.map (fun pq => (toLowercase d.symbol, bidDepthEvent d.transaction_time now pq)) ++
        asks.map (fun pq => (toLowercase d.symbol, askDepthEvent d.transaction_time now pq)) := by
    simp [process_message, hparse, hprev]
  refine ⟨hemit, ?_, ?_⟩
  · intro e he
    rw [hemit] at he
    rcases List.mem_append.mp he with h | h <;>
      · obtain ⟨pq, _, rfl⟩ := List.mem_map.mp h
        simp [bidDepthEvent, askDepthEvent]
  · simp [process_message, hparse, hprev]

/-- The concrete parser used by the stream witnesses. -/
def pW : String → String → Option (ℚ × ℚ) := fun _ _ => some (3, 7)

/-- A concrete depth diff for the C5 witness. -/
def dW : DepthUpdateMsg :=
  { symbol := "b"
    transaction_time := 1700000000000
    first_update_id := 2
    last_update_id := 5
    prev_update_id := 1
    bids := [("50000", "1.5")]
    asks := [("50100", "2.0")] }

/-- Witness for C5 at a concrete diff with `prev_u` cached. -/
theorem depth_update_with_cached_prev_u_emissions_witness :
    lookupPrevU [("b", 1)] (toLowercase dW.symbol) = some 1 ∧
    parse_depth pW dW.bids dW.asks = some ([(3, 7)], [(3, 7)]) ∧
    (process_message pW 9 [("b", 1)] (StreamMsg.DepthUpdate dW)).2.1 =
      ([((3 : ℚ), (7 : ℚ))].map
          (fun pq => (toLowercase dW.symbol, bidDepthEvent dW.transaction_time 9 pq)) ++
        [((3 : ℚ), (7 : ℚ))].map
          (fun pq => (toLowercase dW.symbol, askDepthEvent dW.transaction_time 9 pq))) :=
  ⟨by rfl, by rfl,
   (depth_update_with_cached_prev_u_emissions pW 9 [("b", 1)] dW 1 (by rfl)
      [(3, 7)] [(3, 7)] (by rfl)).1⟩

/-! ### Claim C6: trade aggressor side -/

/-- Claim C6: For every parseable `Trade` stream message, the emitted feed
event's code is `LOCAL_SELL_TRADE_EVENT` when
`is_the_buyer_the_market_maker` is true and `LOCAL_BUY_TRADE_EVENT` when it
is false. -/
theorem trade_event_aggressor_side (p : String → String → Option (ℚ × ℚ))
    (now : Int) (prev_u : List (String × Int)) (t : TradeMsg) (px qty : ℚ)
    (h : parse_px_qty_tup p t.price t.qty = some (px, qty)) :
    ((process_message p now prev_u (StreamMsg.Trade t)).2.1).map (fun e => e.2.ev) =
      [if t.is_the_buyer_the_market_maker then EvCode.LOCAL_SELL_TRADE_EVENT
       else EvCode.LOCAL_BUY_TRADE_EVENT] := by
  simp [process_message, h]

/-- A concrete trade with the maker on the buy side, for the C6 witness. -/
def tW : TradeMsg :=
  { symbol := "b"
    transaction_time := 123
    price := "50050"
    qty := "0.1"
    is_the_buyer_the_market_maker := true }

/-- Witness for C6: `tW` parses and is emitted as a sell-aggressor trade. -/
theorem trade_event_aggressor_side_witness :
    parse_px_qty_tup pW tW.price tW.qty = some (3, 7) ∧
    ((process_message pW 9 [] (StreamMsg.Trade tW)).2.1).map (fun e => e.2.ev) =
      [if tW.is_the_buyer_the_market_maker then EvCode.LOCAL_SELL_TRADE_EVENT
       else EvCode.LOCAL_BUY_TRADE_EVENT] :=
  ⟨by rfl, trade_event_aggressor_side pW 9 [] tW 3 7 (by rfl)⟩

/-! ### Claim C7: fan-in routing discipline -/

/-- Claim C7: Any event returned with `Ok` by `recv_timeout(id, timeout)` came
from a received message whose header `dst_id` was `0` (`TO_ALL`) or equal to
`id`; a message with any other nonzero `dst_id` is never the returned one —
it is discarded and polling continues. -/
theorem recv_timeout_delivers_only_matching_dst {α : Type} (id timeout n i : Nat)
    (trace : List (StepInput α)) (ev : α)
    (h : recv_timeout id timeout n i trace = some (Except.ok ev)) :
    ∃ step ∈ trace, ∃ dst, step.recv = RecvOutcome.msg dst ev ∧ (dst = 0 ∨ dst = id) := by
  induction trace generalizing i with
  | nil => simp [recv_timeout] at h
  | cons step rest ih =>
    rw [recv_timeout] at h
    by_cases he : step.elapsed > timeout
    · simp [he] at h
    · simp only [he, if_false] at h
      cases hn : step.nodeEv with
      | Tick =>
        rw [hn] at h
        cases hr : step.recv with
        | fail s => rw [hr] at h; simp at h
        | empty =>
          rw [hr] at h
          obtain ⟨s, hs, hrec⟩ := ih _ h
          exact ⟨s, List.mem_cons_of_mem _ hs, hrec⟩
        | msg dst e =>
          rw [hr] at h
          by_cases hd : dst = 0 ∨ dst = id
          · simp only [hd, if_true, Option.some.injEq] at h
            obtain rfl : e = ev := by cases h; rfl
            exact ⟨step, List.mem_cons_self _ _, dst, hr, hd⟩
          · simp only [hd, if_false] at h
            obtain ⟨s, hs, hrec⟩ := ih _ h
            exact ⟨s, List.mem_cons_of_mem _ hs, hrec⟩
      | TerminationRequest => rw [hn] at h; simp at h
      | InterruptSignal => rw [hn] at h; simp at h

/-- Witness for C7: with strategy id 5, a trace whose first message is
addressed to 7 (discarded) and whose second is addressed to 5 returns the
second event, which indeed arrived with `dst_id = id`. -/
theorem recv_timeout_delivers_only_matching_dst_witness :
    recv_timeout 5 100 2 0
        [⟨10, NodeEv.Tick, RecvOutcome.msg 7 (42 : Nat)⟩,
         ⟨20, NodeEv.Tick, RecvOutcome.msg 5 99⟩] = some (Except.ok 99) ∧
    ∃ step ∈ [(⟨10, NodeEv.Tick, RecvOutcome.msg 7 (42 : Nat)⟩ : StepInput Nat),
              ⟨20, NodeEv.Tick, RecvOutcome.msg 5 99⟩],
      ∃ dst, step.recv = RecvOutcome.msg dst 99 ∧ (dst = 0 ∨ dst = 5) :=
  ⟨by rfl,
   recv_timeout_delivers_only_matching_dst 5 100 2 0 _ 99 (by rfl)⟩
